import Mathlib

/-!
Verification development for the vocal-fold onset-sensitivity repository.

The Python sources are embedded shallowly:
* `LibTest` embeds `src/libtest.py` (the Taylor-remainder convergence check).
* `LibSetup` embeds `src/libsetup.py` (fluid-model selection, reference-vector
  construction, and the Hopf initial-guess assembly of `setup_hopf_state`).
* `MainHopf` embeds `src/main_hopf.py` (the driver's initial guess and the
  Newton linear subproblem `linear_subproblem_hopf`).
* `StressTest` embeds `src/main_inv_stress_test_lsa.py` (`set_props` and the
  bracket detection of `run_solve_hopf`).

External collaborators that the repository imports but does not define
(`libhopf`, `libfunctionals`, PETSc, the block-array library) appear as
explicit function parameters or as abstract value types, so every theorem
below is about the control and data flow of the repository's own code.
Real-valued arrays are modelled over `ℚ` where the code only compares,
copies and rearranges numbers, and over an arbitrary field (instantiated at
`ℝ` when logarithms matter) in the Taylor-convergence embedding.
-/

namespace LibTest

/-- Embeds `alphas = 2**np.arange(4)[::-1]` from `src/libtest.py` line 17:
the step sizes of the Taylor test, largest first. -/
def taylor_alphas (K : Type) [Field K] : List K :=
  ((List.range 4).map (fun i => (2 : K) ^ i)).reverse

/-- Embeds `taylor_convergence` from `src/libtest.py` lines 9-39.
`log` stands for `np.log`, `norm` for the caller-supplied (or default
block-array) norm, `res`/`jac` for the caller-supplied value and
directional-derivative functions; all four are parameters of the Python
function or external library calls.  The returned tuple is
`(alphas, errs, magnitudes, conv_rates)` exactly as on line 39; the
relative errors `errs/magnitudes` of line 34 are printed, not returned. -/
def taylor_convergence {K X V : Type} [Field K] [Add X] [SMul K X]
    [Add V] [Sub V] [SMul K V]
    (log : K → K) (norm : V → K) (x0 dx : X) (res : X → V) (jac : X → X → V) :
    List K × List K × List K × List K :=
  let alphas := taylor_alphas K
  let res_ns := alphas.map (fun alpha => res (x0 + alpha • dx))
  let res_0 := res x0
  let dres_exacts := res_ns.map (fun res_n => res_n - res_0)
  let dres_linear := jac x0 dx
  let errs := List.zipWith
    (fun dres_exact alpha => norm (dres_exact - alpha • dres_linear))
    dres_exacts alphas
  let magnitudes := List.zipWith
    (fun dres_exact alpha => (1/2 : K) * norm (dres_exact + alpha • dres_linear))
    dres_exacts alphas
  let conv_rates := List.zipWith (fun x y => x / y)
    (List.zipWith (fun e1 e2 => log (e1 / e2)) errs.dropLast errs.tail)
    (List.zipWith (fun a1 a2 => log (a1 / a2)) alphas.dropLast alphas.tail)
  (alphas, errs, magnitudes, conv_rates)

/-- The per-step error norm of the Taylor test: the difference between the
actual change of `res` over step `alpha` and the linear prediction
`alpha * jac x0 dx` (lines 21-27 of `src/libtest.py`). -/
def taylor_err {K X V : Type} [Field K] [Add X] [SMul K X]
    [Add V] [Sub V] [SMul K V]
    (norm : V → K) (x0 dx : X) (res : X → V) (jac : X → X → V) (alpha : K) : K :=
  norm ((res (x0 + alpha • dx) - res x0) - alpha • jac x0 dx)

/-- The per-step magnitude used as a normalizer (lines 28-31). -/
def taylor_magnitude {K X V : Type} [Field K] [Add X] [SMul K X]
    [Add V] [Sub V] [SMul K V]
    (norm : V → K) (x0 dx : X) (res : X → V) (jac : X → X → V) (alpha : K) : K :=
  (1/2 : K) * norm ((res (x0 + alpha • dx) - res x0) + alpha • jac x0 dx)

theorem taylor_alphas_eq (K : Type) [Field K] :
    taylor_alphas K = [8, 4, 2, 1] := by
  simp [taylor_alphas, List.range_succ]
  norm_num

/-- Closed form of everything `taylor_convergence` returns: the step sizes
8, 4, 2, 1 (each half the previous, largest first), the error norms, the
magnitudes, and the empirical convergence order
`log(err_i/err_{i+1}) / log(alpha_i/alpha_{i+1})` for each adjacent pair. -/
theorem taylor_convergence_eq {K X V : Type} [Field K] [Add X] [SMul K X]
    [Add V] [Sub V] [SMul K V]
    (log : K → K) (norm : V → K) (x0 dx : X) (res : X → V) (jac : X → X → V) :
    taylor_convergence log norm x0 dx res jac =
      ([8, 4, 2, 1],
       [8, 4, 2, 1].map (taylor_err norm x0 dx res jac),
       [8, 4, 2, 1].map (taylor_magnitude norm x0 dx res jac),
       [log (taylor_err norm x0 dx res jac 8 / taylor_err norm x0 dx res jac 4)
          / log ((8 : K) / 4),
        log (taylor_err norm x0 dx res jac 4 / taylor_err norm x0 dx res jac 2)
          / log ((4 : K) / 2),
        log (taylor_err norm x0 dx res jac 2 / taylor_err norm x0 dx res jac 1)
          / log ((2 : K) / 1)]) := by
  simp only [taylor_convergence, taylor_alphas_eq]
  rfl

/-- C7: `taylor_convergence` is not a pass/fail gate: for every input it is a
total function returning the diagnostic tuple (step sizes, error norms,
magnitudes, convergence rates — four, four, four and three values), and it
asserts no bound on these values and raises no exception based on them
(its codomain is a plain tuple, not a failure-carrying type). -/
theorem taylor_convergence_is_diagnostic {K X V : Type} [Field K] [Add X] [SMul K X]
    [Add V] [Sub V] [SMul K V]
    (log : K → K) (norm : V → K) (x0 dx : X) (res : X → V) (jac : X → X → V) :
    (taylor_convergence log norm x0 dx res jac).1.length = 4
    ∧ (taylor_convergence log norm x0 dx res jac).2.1.length = 4
    ∧ (taylor_convergence log norm x0 dx res jac).2.2.1.length = 4
    ∧ (taylor_convergence log norm x0 dx res jac).2.2.2.length = 3 :=
  ⟨rfl, rfl, rfl, rfl⟩

/-- C3 counterexample: at the concrete input `x0 = 0`, `dx = 1`,
`res = id`, `jac = 0` (over `ℚ`, with identity norm and log), the
relative errors `errs/magnitudes` computed (and printed) by the code are
`[2, 2, 2, 2]`, but no component of the tuple `taylor_convergence` returns
equals that list: the function returns the absolute error norms and the
magnitudes, not the relative errors. -/
theorem taylor_convergence_no_rel_err_returned :
    List.zipWith (fun e m => e / m)
        (taylor_convergence (fun x : ℚ => x) (fun v : ℚ => v) (0 : ℚ) (1 : ℚ)
          (fun x => x) (fun _ _ => (0 : ℚ))).2.1
        (taylor_convergence (fun x : ℚ => x) (fun v : ℚ => v) (0 : ℚ) (1 : ℚ)
          (fun x => x) (fun _ _ => (0 : ℚ))).2.2.1 = [2, 2, 2, 2]
    ∧ (taylor_convergence (fun x : ℚ => x) (fun v : ℚ => v) (0 : ℚ) (1 : ℚ)
          (fun x => x) (fun _ _ => (0 : ℚ))).1 ≠ [2, 2, 2, 2]
    ∧ (taylor_convergence (fun x : ℚ => x) (fun v : ℚ => v) (0 : ℚ) (1 : ℚ)
          (fun x => x) (fun _ _ => (0 : ℚ))).2.1 ≠ [2, 2, 2, 2]
    ∧ (taylor_convergence (fun x : ℚ => x) (fun v : ℚ => v) (0 : ℚ) (1 : ℚ)
          (fun x => x) (fun _ _ => (0 : ℚ))).2.2.1 ≠ [2, 2, 2, 2]
    ∧ (taylor_convergence (fun x : ℚ => x) (fun v : ℚ => v) (0 : ℚ) (1 : ℚ)
          (fun x => x) (fun _ _ => (0 : ℚ))).2.2.2 ≠ [2, 2, 2, 2] := by
  rw [taylor_convergence_eq]
  norm_num [taylor_err, taylor_magnitude, smul_eq_mul]

/-- C3 (amended): for every base point, direction, value function and
directional-derivative function, `taylor_convergence` evaluates `res` over
the descending geometric steps `alpha = 8, 4, 2, 1` (each half the
previous, largest first), forms at each step the error norm of
`res(x0+alpha*dx) - res(x0)` minus `alpha*jac(x0,dx)`, and returns one
absolute error norm and one magnitude per step (the relative errors, their
quotients, are printed but not returned) together with the empirical
convergence order `log(err_i/err_{i+1})/log(alpha_i/alpha_{i+1})` for each
adjacent pair of step sizes. -/
theorem taylor_convergence_returns {K X V : Type} [Field K] [Add X] [SMul K X]
    [Add V] [Sub V] [SMul K V]
    (log : K → K) (norm : V → K) (x0 dx : X) (res : X → V) (jac : X → X → V) :
    taylor_convergence log norm x0 dx res jac =
      ([8, 4, 2, 1],
       [8, 4, 2, 1].map (taylor_err norm x0 dx res jac),
       [8, 4, 2, 1].map (taylor_magnitude norm x0 dx res jac),
       [log (taylor_err norm x0 dx res jac 8 / taylor_err norm x0 dx res jac 4)
          / log ((8 : K) / 4),
        log (taylor_err norm x0 dx res jac 4 / taylor_err norm x0 dx res jac 2)
          / log ((4 : K) / 2),
        log (taylor_err norm x0 dx res jac 2 / taylor_err norm x0 dx res jac 1)
          / log ((2 : K) / 1)]) :=
  taylor_convergence_eq log norm x0 dx res jac

/-- C4 counterexample: at the concrete input `res(x) = x^3` with its correct
directional derivative `jac(x,dx) = 3*x^2*dx`, base point `0` and the
finite, nonzero direction `1`, the first observed convergence order reported
by `taylor_convergence` (with the real logarithm and absolute-value norm) is
`3`, which lies outside `[1.8, 2.2]`: a correct analytic derivative does not
by itself force the observed order into that interval at the fixed step
sizes 8, 4, 2, 1. -/
theorem taylor_convergence_cubic_order_three :
    (taylor_convergence Real.log (fun v : ℝ => |v|) (0 : ℝ) (1 : ℝ)
        (fun x => x ^ 3) (fun x dx => (3 * x ^ 2) * dx)).2.2.2.getD 0 0 = 3
    ∧ ¬((taylor_convergence Real.log (fun v : ℝ => |v|) (0 : ℝ) (1 : ℝ)
        (fun x => x ^ 3) (fun x dx => (3 * x ^ 2) * dx)).2.2.2.getD 0 0
          ∈ Set.Icc (1.8 : ℝ) 2.2) := by
  have hlog2 : Real.log 2 ≠ 0 := ne_of_gt (Real.log_pos (by norm_num))
  have h : (taylor_convergence Real.log (fun v : ℝ => |v|) (0 : ℝ) (1 : ℝ)
      (fun x => x ^ 3) (fun x dx => (3 * x ^ 2) * dx)).2.2.2.getD 0 0
        = Real.log 8 / Real.log 2 := by
    rw [taylor_convergence_eq]
    norm_num [taylor_err, smul_eq_mul, List.getD_cons_zero]
  have h8 : Real.log 8 / Real.log 2 = 3 := by
    rw [show (8 : ℝ) = 2 ^ 3 by norm_num, Real.log_pow, mul_div_assoc,
      div_self hlog2]
    norm_num
  rw [h, h8]
  norm_num [Set.mem_Icc]

/-- C4 (amended): the Taylor verification uses the four step sizes
8, 4, 2, 1 (halving three times).  For a residual with exactly quadratic
Taylor remainder, `res(x) = c*x^2` with its correct analytic derivative
`jac(x,dx) = 2*c*x*dx`, any base point and any finite nonzero direction
(`c ≠ 0`, `d ≠ 0`), every observed convergence order equals `2` exactly and
so lies within `[1.8, 2.2]`; for residuals with higher-order remainders the
order at these finite step sizes can leave the interval (a cubic residual
gives order 3). -/
theorem taylor_convergence_quadratic_order_two (c d x0 : ℝ)
    (hc : c ≠ 0) (hd : d ≠ 0) :
    (taylor_convergence Real.log (fun v : ℝ => |v|) x0 d
        (fun x => c * x ^ 2) (fun x dx => (2 * c * x) * dx)).2.2.2 = [2, 2, 2]
    ∧ ∀ r ∈ (taylor_convergence Real.log (fun v : ℝ => |v|) x0 d
        (fun x => c * x ^ 2) (fun x dx => (2 * c * x) * dx)).2.2.2,
        r ∈ Set.Icc (1.8 : ℝ) 2.2 := by
  have hlog2 : Real.log 2 ≠ 0 := ne_of_gt (Real.log_pos (by norm_num))
  have hA : |c * d ^ 2| ≠ 0 := abs_ne_zero.mpr (mul_ne_zero hc (pow_ne_zero 2 hd))
  have herr : ∀ a : ℝ, taylor_err (fun v : ℝ => |v|) x0 d
      (fun x => c * x ^ 2) (fun x dx => (2 * c * x) * dx) a
        = |c * d ^ 2| * a ^ 2 := by
    intro a
    simp only [taylor_err, smul_eq_mul]
    have h1 : (c * (x0 + a * d) ^ 2 - c * x0 ^ 2) - a * ((2 * c * x0) * d)
        = (c * d ^ 2) * a ^ 2 := by ring
    rw [h1, abs_mul, abs_of_nonneg (sq_nonneg a)]
  have hr1 : (|c * d ^ 2| * (8 : ℝ) ^ 2) / (|c * d ^ 2| * (4 : ℝ) ^ 2) = 4 := by
    rw [mul_div_mul_left _ _ hA]; norm_num
  have hr2 : (|c * d ^ 2| * (4 : ℝ) ^ 2) / (|c * d ^ 2| * (2 : ℝ) ^ 2) = 4 := by
    rw [mul_div_mul_left _ _ hA]; norm_num
  have hr3 : (|c * d ^ 2| * (2 : ℝ) ^ 2) / (|c * d ^ 2| * (1 : ℝ) ^ 2) = 4 := by
    rw [mul_div_mul_left _ _ hA]; norm_num
  have hq1 : (8 : ℝ) / 4 = 2 := by norm_num
  have hq2 : (4 : ℝ) / 2 = 2 := by norm_num
  have hq3 : (2 : ℝ) / 1 = 2 := by norm_num
  have h42 : Real.log 4 / Real.log 2 = 2 := by
    rw [show (4 : ℝ) = 2 ^ 2 by norm_num, Real.log_pow, mul_div_assoc,
      div_self hlog2]
    norm_num
  have hmain : (taylor_convergence Real.log (fun v : ℝ => |v|) x0 d
      (fun x => c * x ^ 2) (fun x dx => (2 * c * x) * dx)).2.2.2 = [2, 2, 2] := by
    rw [taylor_convergence_eq]
    simp only [herr]
    rw [hr1, hr2, hr3, hq1, hq2, hq3, h42]
  refine ⟨hmain, ?_⟩
  intro r hr
  rw [hmain] at hr
  simp only [List.mem_cons, List.not_mem_nil, or_false] at hr
  rcases hr with h | h | h <;> rw [h] <;> constructor <;> norm_num

/-- C4 witness: the amended theorem applied at the concrete quadratic
residual with `c = 1`, `d = 1`, `x0 = 0`. -/
theorem taylor_convergence_quadratic_order_two_witness :
    (taylor_convergence Real.log (fun v : ℝ => |v|) (0 : ℝ) (1 : ℝ)
        (fun x => 1 * x ^ 2) (fun x dx => (2 * 1 * x) * dx)).2.2.2 = [2, 2, 2] :=
  (taylor_convergence_quadratic_order_two 1 1 0 one_ne_zero one_ne_zero).1

end LibTest

namespace LibSetup

/-- The transient Bernoulli fluid model classes of the external `femvf`
package, as selected by `src/libsetup.py` lines 17-23. -/
inductive TransientFluidType
  | BernoulliFixedSep
  | BernoulliSmoothMinSep
deriving DecidableEq

/-- The dynamical Bernoulli fluid model classes of the external `femvf`
package, as selected by `src/libsetup.py` lines 25-31. -/
inductive DynamicalFluidType
  | BernoulliFixedSep
  | BernoulliSmoothMinSep
  | LinearizedBernoulliFixedSep
  | LinearizedBernoulliSmoothMinSep
deriving DecidableEq

/-- Embeds `transient_fluidtype_from_sep_method` (`src/libsetup.py` lines
17-23); the Python `raise ValueError(...)` is modelled as `Except.error`. -/
def transient_fluidtype_from_sep_method (sep_method : String) :
    Except String TransientFluidType :=
  if sep_method = "fixed" then .ok .BernoulliFixedSep
  else if sep_method = "smoothmin" then .ok .BernoulliSmoothMinSep
  else .error ("Something dun goofed")

/-- Embeds `dynamical_fluidtype_from_sep_method` (`src/libsetup.py` lines
25-31), returning the (nonlinear, linearized) pair. -/
def dynamical_fluidtype_from_sep_method (sep_method : String) :
    Except String (DynamicalFluidType × DynamicalFluidType) :=
  if sep_method = "fixed" then
    .ok (.BernoulliFixedSep, .LinearizedBernoulliFixedSep)
  else if sep_method = "smoothmin" then
    .ok (.BernoulliSmoothMinSep, .LinearizedBernoulliSmoothMinSep)
  else .error ("Something dun goofed")

/-- C8: for every `sep_method` other than `"fixed"` and `"smoothmin"`, both
selection functions raise (model: return `Except.error`); `"fixed"` yields
the fixed-separation Bernoulli types and `"smoothmin"` the smooth-minimum
types, the dynamical variant returning the (nonlinear, linearized) pair. -/
theorem fluidtype_from_sep_method_spec (sep_method : String)
    (h1 : sep_method ≠ "fixed") (h2 : sep_method ≠ "smoothmin") :
    transient_fluidtype_from_sep_method sep_method
        = .error ("Something dun goofed")
    ∧ dynamical_fluidtype_from_sep_method sep_method
        = .error ("Something dun goofed")
    ∧ transient_fluidtype_from_sep_method "fixed" = .ok .BernoulliFixedSep
    ∧ transient_fluidtype_from_sep_method "smoothmin"
        = .ok .BernoulliSmoothMinSep
    ∧ dynamical_fluidtype_from_sep_method "fixed"
        = .ok (.BernoulliFixedSep, .LinearizedBernoulliFixedSep)
    ∧ dynamical_fluidtype_from_sep_method "smoothmin"
        = .ok (.BernoulliSmoothMinSep, .LinearizedBernoulliSmoothMinSep) := by
  refine ⟨?_, ?_, rfl, rfl, rfl, rfl⟩ <;>
    simp [transient_fluidtype_from_sep_method,
      dynamical_fluidtype_from_sep_method, h1, h2]

/-- C8 witness: the theorem applied at the concrete method string
`"other"`. -/
theorem fluidtype_from_sep_method_spec_witness :
    transient_fluidtype_from_sep_method "other"
        = .error ("Something dun goofed")
    ∧ dynamical_fluidtype_from_sep_method "other"
        = .error ("Something dun goofed") :=
  ⟨(fluidtype_from_sep_method_spec "other" (by decide) (by decide)).1,
   (fluidtype_from_sep_method_spec "other" (by decide) (by decide)).2.1⟩

/-- A block vector: labelled blocks of rational entries, modelling the
block-array containers used throughout the repository. -/
structure BlockVec where
  blocks : List (String × List ℚ)
deriving DecidableEq

/-- `v[label].set(c)`: overwrite every entry of the block named `label`. -/
def BlockVec.set_block (v : BlockVec) (label : String) (c : ℚ) : BlockVec :=
  ⟨v.blocks.map (fun b => if b.1 = label then (b.1, b.2.map (fun _ => c)) else b)⟩

/-- `v.set(c)`: overwrite every entry of the whole block vector. -/
def BlockVec.set_all (v : BlockVec) (c : ℚ) : BlockVec :=
  ⟨v.blocks.map (fun b => (b.1, b.2.map (fun _ => c)))⟩

/-- Embeds the reference-vector construction shared by
`src/libsetup.py` lines 157-159, `src/main_hopf.py` lines 97-99 and
`src/test_libfunctionals.py` lines 85-87:
`EREF = res.state.copy(); EREF['q'].set(1.0); EREF.set(1.0)`. -/
def mk_EREF (state : BlockVec) : BlockVec :=
  (state.set_block ("q") 1).set_all 1

/-- C9: in every setup path constructing the normalization reference vector,
the resulting `EREF` has every entry equal to `1`: the whole-vector
`set(1.0)` performed last overwrites the preceding per-block assignment to
the `q` block, so `mk_EREF` coincides with plain `set_all 1` and the `q`
block is not distinguished from the rest. -/
theorem mk_EREF_all_ones (state : BlockVec) :
    mk_EREF state = state.set_all 1
    ∧ ∀ b ∈ (mk_EREF state).blocks, ∀ x ∈ b.2, x = (1 : ℚ) := by
  constructor
  · simp only [mk_EREF, BlockVec.set_block, BlockVec.set_all, List.map_map]
    refine congrArg BlockVec.mk (List.map_congr_left ?_)
    intro b _
    by_cases hb : b.1 = "q" <;> simp [hb, Function.comp, List.map_map]
  · intro b hb x hx
    simp only [mk_EREF, BlockVec.set_all, List.mem_map] at hb
    obtain ⟨a, _, rfl⟩ := hb
    simp only [List.mem_map] at hx
    obtain ⟨y, _, rfl⟩ := hx
    rfl

/-- C9 witness: the theorem applied to a concrete two-block state whose `q`
block starts from nonconstant values. -/
theorem mk_EREF_all_ones_witness :
    mk_EREF ⟨[(("q"), [0, 2]), (("u"), [3])]⟩
        = BlockVec.set_all ⟨[(("q"), [0, 2]), (("u"), [3])]⟩ 1
    ∧ (1 : ℚ) = 1 :=
  ⟨(mk_EREF_all_ones ⟨[(("q"), [0, 2]), (("u"), [3])]⟩).1,
   (mk_EREF_all_ones ⟨[(("q"), [0, 2]), (("u"), [3])]⟩).2
     (("q"), [1, 1]) (by decide) 1 (by decide)⟩

/-- A complex eigenvalue split into real and imaginary parts, as returned by
the modal solve. -/
structure CplxQ where
  re : ℚ
  im : ℚ
deriving DecidableEq

/-- Embeds `idx_hopf = 3` from `src/libsetup.py` line 188 (identically
`src/test_libfunctionals.py` line 116 and `src/main_hopf.py` line 140): the
unstable mode is taken to be the 3rd one, with a comment that this is
a priori known for the current test case. -/
def idx_hopf : ℕ := 3

/-- The eigenmode index used by `setup_hopf_state`, as a function of the
modal-analysis results (`src/libsetup.py` lines 182-188): the binding
`idx_hopf = 3` does not consult `omegas` (nor any caller argument). -/
def setup_hopf_mode_index (omegas : List CplxQ) : ℕ := idx_hopf

/-- Embeds `omega_hopf = abs(omegas[idx_hopf].imag)` from
`src/libsetup.py` line 189. -/
def omega_hopf (omegas : List CplxQ) : ℚ :=
  |(omegas.getD (setup_hopf_mode_index omegas) ⟨0, 0⟩).im|

/-- `PSUB = 450 * 10` (`src/libsetup.py` line 104). -/
def PSUB : ℚ := 450 * 10

/-- The five segments of the assembled Hopf-state vector: base state,
real/imaginary eigenmode, bifurcation parameter and oscillation
frequency. -/
structure HopfStateVec (V : Type) where
  state : V
  mode_real : V
  mode_imag : V
  psub : ℚ
  omega : ℚ

/-- Embeds the initial-guess assembly of `setup_hopf_state`
(`src/libsetup.py` lines 186-202).  `normalize` stands for
`libhopf.normalize_eigenvector_by_hopf` (external to `src/`), `dflt` for the
eigenvector storage read by indexing, `xfp_n` for the solved fixed point and
`EREF` for the normalization reference vector. -/
def setup_hopf_initial_guess {V : Type} (dflt : V)
    (normalize : V → V → V → V × V) (xfp_n EREF : V)
    (omegas : List CplxQ) (eigvecs_real eigvecs_imag : List V) :
    HopfStateVec V :=
  let mode_real_hopf := eigvecs_real.getD (setup_hopf_mode_index omegas) dflt
  let mode_imag_hopf := eigvecs_imag.getD (setup_hopf_mode_index omegas) dflt
  let xmode := normalize mode_real_hopf mode_imag_hopf EREF
  { state := xfp_n
    mode_real := xmode.1
    mode_imag := xmode.2
    psub := PSUB
    omega := omega_hopf omegas }

end LibSetup

namespace MainHopf

/-- Embeds the initial-guess assembly of the `main_hopf.py` driver
(`src/main_hopf.py` lines 140-154); it differs from `setup_hopf_state` in
assigning `xhopf_0['omega'] = -omega_hopf` (line 150). -/
def main_hopf_initial_guess {V : Type} (dflt : V)
    (normalize : V → V → V → V × V) (xfp_n EREF : V)
    (omegas : List LibSetup.CplxQ) (eigvecs_real eigvecs_imag : List V) :
    LibSetup.HopfStateVec V :=
  let mode_real_hopf := eigvecs_real.getD LibSetup.idx_hopf dflt
  let mode_imag_hopf := eigvecs_imag.getD LibSetup.idx_hopf dflt
  let xmode := normalize mode_real_hopf mode_imag_hopf EREF
  { state := xfp_n
    mode_real := xmode.1
    mode_imag := xmode.2
    psub := LibSetup.PSUB
    omega := -(LibSetup.omega_hopf omegas) }

/-- The PETSc Krylov solver types that the driver can configure; `preonly`
performs no iteration and only applies the preconditioner. -/
inductive KSPType
  | preonly
  | richardson
  | gmres
deriving DecidableEq

/-- Whether a Krylov solver type iterates; `preonly` does not. -/
def KSPType.isIterative : KSPType → Bool
  | .preonly => false
  | .richardson => true
  | .gmres => true

/-- The PETSc preconditioner types that the driver can configure; `lu` is a
single direct LU factorization. -/
inductive PCType
  | lu
  | ilu
  | jacobi
deriving DecidableEq

/-- The data produced by one linear subproblem of the augmented Hopf Newton
solve: the assembled residual (returned by the inner `assem_res`), the
assembled block Jacobian, the Krylov/preconditioner configuration, and the
solve map. -/
structure LinearSubproblem (V M : Type) where
  res_n : V
  jac_n : M
  ksp_type : KSPType
  pc_type : PCType
  solve : V → V

/-- Embeds `linear_subproblem_hopf` (`src/main_hopf.py` lines 156-187).
`hopf_res`, `hopf_jac`, `apply_dirichlet_vec` and `apply_dirichlet_mat` are
the closures produced by `libhopf.make_hopf_system` (external to `src/`);
`lu_solve jac rhs` stands for the PETSc `KSP` application with type
`PREONLY` and an `LU` preconditioner built from `jac`, recorded in the
`ksp_type`/`pc_type` fields exactly as configured on lines 173-182. -/
def linear_subproblem_hopf {V M : Type} (hopf_res : V → V) (hopf_jac : V → M)
    (apply_dirichlet_vec : V → V) (apply_dirichlet_mat : M → M)
    (lu_solve : M → V → V) (xhopf_n : V) : LinearSubproblem V M :=
  let res_n := apply_dirichlet_vec (hopf_res xhopf_n)
  let jac_n := apply_dirichlet_mat (hopf_jac xhopf_n)
  { res_n := res_n
    jac_n := jac_n
    ksp_type := .preonly
    pc_type := .lu
    solve := fun rhs_n => lu_solve jac_n rhs_n }

end MainHopf

/-- C5: every linear subproblem of the augmented Hopf Newton solve first
applies the Dirichlet boundary constraints to both the assembled residual
vector and the assembled block Jacobian, and then solves the linear system
by a single direct LU factorization of that constrained Jacobian — a
`preonly` Krylov context (which performs no iteration) with an `LU`
preconditioner. -/
theorem linear_subproblem_hopf_direct_lu {V M : Type}
    (hopf_res : V → V) (hopf_jac : V → M)
    (apply_dirichlet_vec : V → V) (apply_dirichlet_mat : M → M)
    (lu_solve : M → V → V) (xhopf_n : V) :
    (MainHopf.linear_subproblem_hopf hopf_res hopf_jac apply_dirichlet_vec
        apply_dirichlet_mat lu_solve xhopf_n).res_n
      = apply_dirichlet_vec (hopf_res xhopf_n)
    ∧ (MainHopf.linear_subproblem_hopf hopf_res hopf_jac apply_dirichlet_vec
        apply_dirichlet_mat lu_solve xhopf_n).jac_n
      = apply_dirichlet_mat (hopf_jac xhopf_n)
    ∧ (MainHopf.linear_subproblem_hopf hopf_res hopf_jac apply_dirichlet_vec
        apply_dirichlet_mat lu_solve xhopf_n).ksp_type = MainHopf.KSPType.preonly
    ∧ (MainHopf.linear_subproblem_hopf hopf_res hopf_jac apply_dirichlet_vec
        apply_dirichlet_mat lu_solve xhopf_n).pc_type = MainHopf.PCType.lu
    ∧ (MainHopf.linear_subproblem_hopf hopf_res hopf_jac apply_dirichlet_vec
        apply_dirichlet_mat lu_solve xhopf_n).ksp_type.isIterative = false
    ∧ ∀ rhs_n, (MainHopf.linear_subproblem_hopf hopf_res hopf_jac
        apply_dirichlet_vec apply_dirichlet_mat lu_solve xhopf_n).solve rhs_n
      = lu_solve (apply_dirichlet_mat (hopf_jac xhopf_n)) rhs_n :=
  ⟨rfl, rfl, rfl, rfl, rfl, fun _ => rfl⟩

/-- C2 counterexample: with the modal results holding the eigenvalue `0 - 1i`
at index 3 (the selected index), the assembled guess's frequency segment is
`|-1| = 1`, not the eigenvalue's imaginary part `-1`: the code takes the
absolute value (`src/libsetup.py` line 189). -/
theorem hopf_guess_omega_not_imag :
    (LibSetup.setup_hopf_initial_guess (0 : ℚ) (fun a b _ => (a, b)) 0 1
        [⟨0, 0⟩, ⟨0, 0⟩, ⟨0, 0⟩, ⟨0, -1⟩] [] []).omega
      ≠ (([⟨0, 0⟩, ⟨0, 0⟩, ⟨0, 0⟩, ⟨0, -1⟩] :
          List LibSetup.CplxQ).getD LibSetup.idx_hopf ⟨0, 0⟩).im := by
  simp only [LibSetup.setup_hopf_initial_guess, LibSetup.omega_hopf,
    LibSetup.setup_hopf_mode_index, LibSetup.idx_hopf]
  norm_num [List.getD]

/-- C2 (amended): for every eigenmode pair consumed, the
oscillation-frequency segment of the assembled Hopf-state vector is set to
the absolute value of the selected eigenvalue's imaginary part in
`setup_hopf_state` (and to the negated absolute value in the `main_hopf.py`
driver); it equals the imaginary part itself exactly when that part is
nonnegative.  The guess combines the fixed point, that frequency, the
constant `PSUB`, and the eigenmode pair normalized against the reference
vector. -/
theorem hopf_guess_omega_is_abs_imag {V : Type} (dflt : V)
    (normalize : V → V → V → V × V) (xfp_n EREF : V)
    (omegas : List LibSetup.CplxQ) (eigvecs_real eigvecs_imag : List V) :
    (LibSetup.setup_hopf_initial_guess dflt normalize xfp_n EREF omegas
        eigvecs_real eigvecs_imag).omega
      = |(omegas.getD LibSetup.idx_hopf ⟨0, 0⟩).im|
    ∧ (MainHopf.main_hopf_initial_guess dflt normalize xfp_n EREF omegas
        eigvecs_real eigvecs_imag).omega
      = -|(omegas.getD LibSetup.idx_hopf ⟨0, 0⟩).im|
    ∧ (LibSetup.setup_hopf_initial_guess dflt normalize xfp_n EREF omegas
        eigvecs_real eigvecs_imag).state = xfp_n
    ∧ (LibSetup.setup_hopf_initial_guess dflt normalize xfp_n EREF omegas
        eigvecs_real eigvecs_imag).psub = LibSetup.PSUB
    ∧ (LibSetup.setup_hopf_initial_guess dflt normalize xfp_n EREF omegas
        eigvecs_real eigvecs_imag).mode_real
      = (normalize (eigvecs_real.getD LibSetup.idx_hopf dflt)
          (eigvecs_imag.getD LibSetup.idx_hopf dflt) EREF).1
    ∧ (LibSetup.setup_hopf_initial_guess dflt normalize xfp_n EREF omegas
        eigvecs_real eigvecs_imag).mode_imag
      = (normalize (eigvecs_real.getD LibSetup.idx_hopf dflt)
          (eigvecs_imag.getD LibSetup.idx_hopf dflt) EREF).2
    ∧ (0 ≤ (omegas.getD LibSetup.idx_hopf ⟨0, 0⟩).im →
        (LibSetup.setup_hopf_initial_guess dflt normalize xfp_n EREF omegas
          eigvecs_real eigvecs_imag).omega
          = (omegas.getD LibSetup.idx_hopf ⟨0, 0⟩).im) :=
  ⟨rfl, rfl, rfl, rfl, rfl, rfl, fun h => abs_of_nonneg h⟩

/-- C2 witness: the amended theorem applied at a concrete modal result whose
selected eigenvalue has nonnegative imaginary part `2`. -/
theorem hopf_guess_omega_is_abs_imag_witness :
    (LibSetup.setup_hopf_initial_guess (0 : ℚ) (fun a b _ => (a, b)) 5 1
        [⟨0, 0⟩, ⟨0, 0⟩, ⟨0, 0⟩, ⟨0, 2⟩] [] []).omega
      = (([⟨0, 0⟩, ⟨0, 0⟩, ⟨0, 0⟩, ⟨0, 2⟩] :
          List LibSetup.CplxQ).getD LibSetup.idx_hopf ⟨0, 0⟩).im :=
  (hopf_guess_omega_is_abs_imag (0 : ℚ) (fun a b _ => (a, b)) 5 1
      [⟨0, 0⟩, ⟨0, 0⟩, ⟨0, 0⟩, ⟨0, 2⟩] [] []).2.2.2.2.2.2
    (by norm_num [List.getD, LibSetup.idx_hopf])

/-- C6 counterexample: two different modal sweeps — one whose leading real
parts cross zero between indices 1 and 2, one already unstable at index 0 —
yield the same selected mode index 3: the selection made by
`setup_hopf_state` does not depend on the sweep (nor on any caller
argument), being the hardcoded constant `idx_hopf = 3`. -/
theorem setup_hopf_mode_index_ignores_sweep :
    LibSetup.setup_hopf_mode_index [⟨-1, 1⟩, ⟨-2, 1⟩, ⟨1, 1⟩, ⟨2, 1⟩] = 3
    ∧ LibSetup.setup_hopf_mode_index [⟨1, 1⟩, ⟨-1, 1⟩, ⟨-2, 1⟩, ⟨-3, 1⟩] = 3
    ∧ ([⟨-1, 1⟩, ⟨-2, 1⟩, ⟨1, 1⟩, ⟨2, 1⟩] : List LibSetup.CplxQ)
        ≠ [⟨1, 1⟩, ⟨-1, 1⟩, ⟨-2, 1⟩, ⟨-3, 1⟩] :=
  ⟨rfl, rfl, by decide⟩

/-- C6 (amended): in the setup procedure that builds the Hopf initial guess
(`setup_hopf_state`), the eigenmode index is the hardcoded constant
`idx_hopf = 3` internal to the procedure (flagged by a source comment as
a priori knowledge to be generalized); it is neither caller-controllable nor
derived from the parameter sweep.  Only the stress-test driver derives a
bracket (of pressures, not of mode indices) from a sweep's sign change. -/
theorem setup_hopf_mode_index_hardcoded (omegas : List LibSetup.CplxQ) :
    LibSetup.setup_hopf_mode_index omegas = LibSetup.idx_hopf
    ∧ LibSetup.idx_hopf = 3 :=
  ⟨rfl, rfl⟩

namespace StressTest

/-- `PSUBS = np.arange(100, 1500, 100)*10` (`src/main_inv_stress_test_lsa.py`
line 28): the monotonically increasing pressure sweep of the stress test. -/
def PSUBS : List ℚ :=
  (List.range 14).map (fun k => ((100 : ℚ) + 100 * k) * 10)

/-- Fancy assignment `arr[dofs] = v` on a scalar DOF array (arrays are
modelled as functions from DOF index to value). -/
def array_assign (arr : ℕ → ℚ) (dofs : List ℕ) (v : ℚ) : ℕ → ℚ :=
  fun i => if i ∈ dofs then v else arr i

/-- Embeds the elastic-modulus part of the stress-test `set_props`
(`src/main_inv_stress_test_lsa.py` lines 30-49): assign `emod_cov` on the
cover DOFs, then `emod_bod` on the body DOFs, then the mean on the shared
DOFs `set(dofs_cov) & set(dofs_bod)`.  The constant properties set by
`setup.set_constant_props` do not touch `emod` and are omitted. -/
def set_props (emod : ℕ → ℚ) (dofs_cov dofs_bod : List ℕ)
    (emod_cov emod_bod : ℚ) : ℕ → ℚ :=
  let dofs_share := dofs_cov.filter (fun i => decide (i ∈ dofs_bod))
  array_assign (array_assign (array_assign emod dofs_cov emod_cov)
    dofs_bod emod_bod) dofs_share (1/2 * (emod_cov + emod_bod))

end StressTest

/-- C10: for every pair of moduli, the stress-test `set_props` assigns
`emod_cov` to cover-only DOFs, `emod_bod` to body-only DOFs, and the
arithmetic mean `(emod_cov + emod_bod)/2` to every DOF belonging to both
regions — the mean assignment, performed last, takes precedence over the
per-region assignments; DOFs in neither region keep their prior value. -/
theorem set_props_layer_values (emod : ℕ → ℚ) (dofs_cov dofs_bod : List ℕ)
    (emod_cov emod_bod : ℚ) (i : ℕ) :
    (i ∈ dofs_cov → i ∉ dofs_bod →
      StressTest.set_props emod dofs_cov dofs_bod emod_cov emod_bod i = emod_cov)
    ∧ (i ∈ dofs_bod → i ∉ dofs_cov →
      StressTest.set_props emod dofs_cov dofs_bod emod_cov emod_bod i = emod_bod)
    ∧ (i ∈ dofs_cov → i ∈ dofs_bod →
      StressTest.set_props emod dofs_cov dofs_bod emod_cov emod_bod i
        = 1/2 * (emod_cov + emod_bod))
    ∧ (i ∉ dofs_cov → i ∉ dofs_bod →
      StressTest.set_props emod dofs_cov dofs_bod emod_cov emod_bod i
        = emod i) := by
  refine ⟨?_, ?_, ?_, ?_⟩ <;> intro h1 h2 <;>
    simp [StressTest.set_props, StressTest.array_assign, List.mem_filter, h1, h2]

/-- C10 witness: the theorem applied with cover DOFs `{0, 1}`, body DOFs
`{1, 2}` and moduli `10`, `20`: DOF 0 gets `10`, DOF 2 gets `20`, the
shared DOF 1 gets the mean `15`, and the untouched DOF 5 keeps `0`. -/
theorem set_props_layer_values_witness :
    StressTest.set_props (fun _ => 0) [0, 1] [1, 2] 10 20 0 = 10
    ∧ StressTest.set_props (fun _ => 0) [0, 1] [1, 2] 10 20 2 = 20
    ∧ StressTest.set_props (fun _ => 0) [0, 1] [1, 2] 10 20 1 = 1/2 * (10 + 20)
    ∧ StressTest.set_props (fun _ => 0) [0, 1] [1, 2] 10 20 5 = (fun _ => (0 : ℚ)) 5 :=
  ⟨(set_props_layer_values (fun _ => 0) [0, 1] [1, 2] 10 20 0).1
      (by decide) (by decide),
   (set_props_layer_values (fun _ => 0) [0, 1] [1, 2] 10 20 2).2.1
      (by decide) (by decide),
   (set_props_layer_values (fun _ => 0) [0, 1] [1, 2] 10 20 1).2.2.1
      (by decide) (by decide),
   (set_props_layer_values (fun _ => 0) [0, 1] [1, 2] 10 20 5).2.2.2
      (by decide) (by decide)⟩

namespace StressTest

/-- Embeds `is_hopf_bif` from `src/main_inv_stress_test_lsa.py` line 96:
`[(w2 > 0 and w1 <= 0) for w1, w2 in zip(omegas_real[:-1], omegas_real[1:])]`. -/
def is_hopf_bif (omegas_real : List ℚ) : List Bool :=
  List.zipWith (fun w1 w2 => decide (w2 > 0) && decide (w1 ≤ 0))
    omegas_real.dropLast omegas_real.tail

/-- Embeds the Hopf-solve branch of `run_solve_hopf`
(`src/main_inv_stress_test_lsa.py` lines 93-111): from the leading
eigenvalue real parts of the LSA sweep, detect the first bracket where the
real part changes from `<= 0` to `> 0`; with no such bracket no Hopf solve
is attempted (`none`); otherwise the guess is built by
`gen_hopf_initial_guess` from the bracket pressures and real parts and the
Hopf Newton solve is run from it.  `gen_hopf_initial_guess` and
`solve_hopf_newton` live in `libhopf` (external to `src/`) and are
parameters; the first takes the bracket pressures and the bracket real
parts as on lines 106-110. -/
def run_solve_hopf {G S : Type} (gen_hopf_initial_guess : ℚ × ℚ → ℚ × ℚ → G)
    (solve_hopf_newton : G → S) (psubs omegas_real : List ℚ) : Option S :=
  let bifs := is_hopf_bif omegas_real
  if bifs.count true = 0 then
    none
  else
    let idx := bifs.indexOf true
    some (solve_hopf_newton (gen_hopf_initial_guess
      (psubs.getD idx 0, psubs.getD (idx + 1) 0)
      (omegas_real.getD idx 0, omegas_real.getD (idx + 1) 0)))

theorem is_hopf_bif_length (l : List ℚ) :
    (is_hopf_bif l).length = l.length - 1 := by
  simp [is_hopf_bif]

theorem is_hopf_bif_getD (l : List ℚ) (i : ℕ) (h : i + 1 < l.length) :
    (is_hopf_bif l).getD i false
      = (decide (l.getD (i + 1) 0 > 0) && decide (l.getD i 0 ≤ 0)) := by
  have h1 : i < (is_hopf_bif l).length := by
    rw [is_hopf_bif_length]; omega
  have h2 : i < l.dropLast.length := by
    simp [List.length_dropLast]; omega
  have h3 : i < l.tail.length := by
    simp [List.length_tail]; omega
  have hi : i < l.length := by omega
  rw [List.getD_eq_getElem _ _ h1, List.getD_eq_getElem _ _ hi,
    List.getD_eq_getElem _ _ h]
  simp [is_hopf_bif, List.getElem_zipWith, List.getElem_dropLast,
    List.getElem_tail]

theorem count_true_zero_iff (bs : List Bool) :
    bs.count true = 0 ↔ ∀ i, i < bs.length → bs.getD i false = false := by
  rw [List.count_eq_zero]
  constructor
  · intro hmem i hi
    rw [List.getD_eq_getElem _ _ hi]
    cases hb : bs[i] with
    | false => rfl
    | true => exact absurd (hb ▸ List.getElem_mem hi) hmem
  · intro hall hmem
    obtain ⟨i, hi, hb⟩ := List.mem_iff_getElem.mp hmem
    have hfalse := hall i hi
    rw [List.getD_eq_getElem _ _ hi, hb] at hfalse
    cases hfalse

theorem indexOf_true_eq (bs : List Bool) : ∀ i : ℕ, i < bs.length →
    bs.getD i false = true → (∀ j, j < i → bs.getD j false = false) →
    bs.indexOf true = i := by
  induction bs with
  | nil => intro i hi _ _; simp at hi
  | cons b tl ih =>
    intro i hi ht hmin
    cases i with
    | zero =>
      simp only [List.getD_cons_zero] at ht
      simp [List.indexOf_cons, ht]
    | succ j =>
      have hb : b = false := by
        have h0 := hmin 0 (Nat.succ_pos j)
        simpa using h0
      have htl : tl.indexOf true = j :=
        ih j (by simpa using hi) (by simpa using ht)
          (fun k hk => by
            have hk1 := hmin (k + 1) (by omega)
            simpa using hk1)
      simp [List.indexOf_cons, hb, htl]

end StressTest

/-- C1: for every linear-stability sweep of leading-eigenvalue real parts
over the monotonically increasing pressure sequence `PSUBS`,
`run_solve_hopf` detects a Hopf bifurcation bracket exactly at the first
consecutive index pair `(i, i+1)` whose real part is `≤ 0` at `i` and
`> 0` at `i+1`; when no such pair exists it attempts no Hopf solve
(returns `none`), and otherwise it builds the initial guess by calling
`gen_hopf_initial_guess` with the bracket pressures
`(psubs[i], psubs[i+1])` and their leading real parts, and runs the Hopf
Newton solve from that guess. -/
theorem run_solve_hopf_bracket {G S : Type}
    (gen_hopf_initial_guess : ℚ × ℚ → ℚ × ℚ → G) (solve_hopf_newton : G → S)
    (psubs omegas_real : List ℚ) :
    List.Chain' (· < ·) StressTest.PSUBS
    ∧ ((∀ i, i + 1 < omegas_real.length →
          ¬(omegas_real.getD i 0 ≤ 0 ∧ omegas_real.getD (i + 1) 0 > 0)) →
        StressTest.run_solve_hopf gen_hopf_initial_guess solve_hopf_newton
          psubs omegas_real = none)
    ∧ (∀ i, i + 1 < omegas_real.length →
        omegas_real.getD i 0 ≤ 0 → omegas_real.getD (i + 1) 0 > 0 →
        (∀ j, j < i →
          ¬(omegas_real.getD j 0 ≤ 0 ∧ omegas_real.getD (j + 1) 0 > 0)) →
        StressTest.run_solve_hopf gen_hopf_initial_guess solve_hopf_newton
            psubs omegas_real
          = some (solve_hopf_newton (gen_hopf_initial_guess
              (psubs.getD i 0, psubs.getD (i + 1) 0)
              (omegas_real.getD i 0, omegas_real.getD (i + 1) 0)))) := by
  have hps : StressTest.PSUBS
      = [1000, 2000, 3000, 4000, 5000, 6000, 7000, 8000, 9000, 10000,
         11000, 12000, 13000, 14000] := by
    simp [StressTest.PSUBS, List.range_succ]
    norm_num
  refine ⟨by rw [hps]; norm_num [List.chain'_cons], ?_, ?_⟩
  · intro hall
    have hcount : (StressTest.is_hopf_bif omegas_real).count true = 0 := by
      rw [StressTest.count_true_zero_iff]
      intro i hi
      have hi1 : i + 1 < omegas_real.length := by
        have hlen := StressTest.is_hopf_bif_length omegas_real
        omega
      rw [StressTest.is_hopf_bif_getD _ _ hi1]
      have hni := hall i hi1
      by_cases h2 : omegas_real.getD (i + 1) 0 > 0
      · have h1 : ¬omegas_real.getD i 0 ≤ 0 := fun h1 => hni ⟨h1, h2⟩
        rw [decide_eq_false h1, Bool.and_false]
      · rw [decide_eq_false h2, Bool.false_and]
    simp [StressTest.run_solve_hopf, hcount]
  · intro i hi1 hle hpos hmin
    have hilen : i < (StressTest.is_hopf_bif omegas_real).length := by
      have hlen := StressTest.is_hopf_bif_length omegas_real
      omega
    have htrue : (StressTest.is_hopf_bif omegas_real).getD i false = true := by
      rw [StressTest.is_hopf_bif_getD _ _ hi1, decide_eq_true hpos,
        decide_eq_true hle]
      rfl
    have hfalse : ∀ j, j < i →
        (StressTest.is_hopf_bif omegas_real).getD j false = false := by
      intro j hj
      have hj1 : j + 1 < omegas_real.length := by omega
      rw [StressTest.is_hopf_bif_getD _ _ hj1]
      have hnj := hmin j hj
      by_cases h2 : omegas_real.getD (j + 1) 0 > 0
      · have h1 : ¬omegas_real.getD j 0 ≤ 0 := fun h1 => hnj ⟨h1, h2⟩
        rw [decide_eq_false h1, Bool.and_false]
      · rw [decide_eq_false h2, Bool.false_and]
    have hidx : (StressTest.is_hopf_bif omegas_real).indexOf true = i :=
      StressTest.indexOf_true_eq _ i hilen htrue hfalse
    have hcount : ¬((StressTest.is_hopf_bif omegas_real).count true = 0) := by
      intro hc
      have hcontra := (StressTest.count_true_zero_iff _).mp hc i hilen
      rw [htrue] at hcontra
      cases hcontra
    simp [StressTest.run_solve_hopf, hcount, hidx]

/-- C1 witness: the theorem applied to the concrete sweep `[1, -1, 2]` over
pressures `[10, 20, 30]` — whose only `≤ 0` to `> 0` crossing is at the
index pair `(1, 2)` — and to the crossing-free sweep `[1, 2]`. -/
theorem run_solve_hopf_bracket_witness :
    StressTest.run_solve_hopf (fun pp ww => (pp, ww)) (fun g => g)
        [10, 20, 30] [1, -1, 2]
      = some (((20 : ℚ), (30 : ℚ)), ((-1 : ℚ), (2 : ℚ)))
    ∧ StressTest.run_solve_hopf (fun pp ww => (pp, ww)) (fun g => g)
        [10, 20] [1, 2] = none := by
  constructor
  · have h := (run_solve_hopf_bracket (fun pp ww => (pp, ww)) (fun g => g)
      [10, 20, 30] [1, -1, 2]).2.2 1 (by norm_num)
      (by norm_num [List.getD]) (by norm_num [List.getD])
      (fun j hj => by interval_cases j <;> norm_num [List.getD])
    simpa [List.getD] using h
  · exact (run_solve_hopf_bracket (fun pp ww => (pp, ww)) (fun g => g)
      [10, 20] [1, 2]).2.1
      (fun i hi => by
        have hi2 : i + 1 < 2 := by simpa using hi
        have hi0 : i < 1 := by omega
        interval_cases i
        norm_num [List.getD])
